import Mathlib

/-!
Verification of the ahgroupbot moderation bot (Rust) against its
natural-language specification, via a shallow embedding of the relevant
source functions in Lean 4.

Conventions of the embedding:
* Rust `u8` / `u32` / `u64` / `usize` values are modelled as `Nat`
  (with explicit saturation or overflow checks where the source has them);
  `i32` / `i64` values are modelled as `Int`.
* The system clock (`now_ts_secs()` in the source) is passed as an
  explicit `now : Nat` argument.
* Fallible operations are modelled with `Option` / `Except`.
-/

namespace Antispam

/-- Embeds `SpamState` of `src/antispam/mod.rs` (the current variant, with
score and creation/update timestamps). The `u8` score and the `u64`
timestamps are modelled as `Nat`. -/
inductive SpamState where
  | Authentic : SpamState
  | MaybeSpam (score : Nat) (create_ts_secs : Nat) (update_ts_secs : Nat) : SpamState
  deriving DecidableEq, Repr

/-- `SPAM_THREHOLD` of `src/antispam/mod.rs` (sic, name as in the source). -/
def SPAM_THREHOLD : Nat := 100

/-- `u8::saturating_add`: addition saturating at `u8::MAX = 255`. -/
def satAdd8 (a b : Nat) : Nat := min 255 (a + b)

/-- Embeds `impl Add for SpamState` of `src/antispam/mod.rs`:
`Authentic` absorbs; two `MaybeSpam` merge with saturating score addition,
`min` of creation timestamps and `max` of update timestamps. -/
def SpamState.add : SpamState → SpamState → SpamState
  | .Authentic, _ => .Authentic
  | _, .Authentic => .Authentic
  | .MaybeSpam s1 c1 u1, .MaybeSpam s2 c2 u2 =>
      .MaybeSpam (satAdd8 s1 s2) (min c1 c2) (max u1 u2)

/-- Embeds `SpamState::is_spam` of `src/antispam/mod.rs`:
a `MaybeSpam` whose score reached `SPAM_THREHOLD`. -/
def SpamState.is_spam : SpamState → Bool
  | .MaybeSpam score _ _ => SPAM_THREHOLD ≤ score
  | _ => false

/-- Embeds `SpamState::with_score` of `src/antispam/mod.rs`
(both timestamps set to the current time). -/
def SpamState.with_score (now : Nat) (score : Nat) : SpamState :=
  .MaybeSpam score now now

/-- Embeds `SpamState::new_spam` of `src/antispam/mod.rs`:
`with_score(SPAM_THREHOLD.saturating_add(1))`. -/
def SpamState.new_spam (now : Nat) : SpamState :=
  .with_score now (satAdd8 SPAM_THREHOLD 1)

/-- `TEXT_SPAM_SCORE_MEDIUM_RISK = SPAM_THREHOLD / 2` of `src/antispam/mod.rs`. -/
def TEXT_SPAM_SCORE_MEDIUM_RISK : Nat := SPAM_THREHOLD / 2

/-- `TEXT_SPAM_SCORE_UNKNOWN_RISK = SPAM_THREHOLD / 6` of `src/antispam/mod.rs`. -/
def TEXT_SPAM_SCORE_UNKNOWN_RISK : Nat := SPAM_THREHOLD / 6

/-- `\d` of the source regexes, modelled as the ASCII digits. -/
def isDigitCh (c : Char) : Bool := '0' ≤ c && c ≤ '9'

/-- `[aA]` of `RE_SPAM_NO_RISK`. -/
def isLatinA (c : Char) : Bool := c = 'a' || c = 'A'

/-- `[hH]` of `RE_SPAM_NO_RISK`. -/
def isLatinH (c : Char) : Bool := c = 'h' || c = 'H'

/-- Does one of the literal alternatives `lits` match at this position? -/
def litHere (lits : List String) (l : List Char) : Bool :=
  lits.any (fun w => w.data.isPrefixOf l)

/-- Unanchored regex search: does `p` accept at some position of `l`? -/
def matchSomewhere (p : List Char → Bool) : List Char → Bool
  | [] => p []
  | c :: rest => p (c :: rest) || matchSomewhere p rest

/-- The literal alternatives of `RE_SPAM_HIGH_RISK` in `src/antispam/mod.rs`,
with the single-character alternation groups `(会|會)(员|員)`, `(预|預)(付|服)`
and `(滴|嘀)(窝|我)` expanded into their four literals each. -/
def highRiskLits : List String :=
  ["开户", "会员", "会員", "會员", "會員", "收入", "接入", "免费", "完整版",
   "兼职", "专职", "咨询", "日结", "小白", "钱", "赚", "支付", "风险", "主页",
   "介绍", "TRX", "散户", "母狗", "轮流", "内射", "学妹", "初中", "高中",
   "大学", "金主", "爸爸", "老公", "白眼", "团队", "专线", "代理", "合作",
   "保底", "日入", "商家", "红包", "盘口", "急需", "吋", "侑", "莳", "玖",
   "预付", "预服", "預付", "預服", "搬砖", "玳", "代付", "点位",
   "滴窝", "滴我", "嘀窝", "嘀我", "群演", "助手", "做工", "招人", "捡漏",
   "项目", "视频", "💵", "💯", "🧧", "📣", "➡️", "⬅️", "👉", "👈"]

/-- `RE_SPAM_HIGH_RISK` at one position: the alternative
`(\d|黑|搬|送|)(U|u)` (whose first group has an empty branch, so a bare
`U`/`u` matches), the alternative `\d\d岁`, or a literal alternative. -/
def highRiskHere (l : List Char) : Bool :=
  (match l with
   | c0 :: _ => c0 = 'U' || c0 = 'u'
   | [] => false)
  ||
  (match l with
   | c0 :: c1 :: _ =>
      (isDigitCh c0 || c0 = '黑' || c0 = '搬' || c0 = '送') && (c1 = 'U' || c1 = 'u')
   | _ => false)
  ||
  (match l with
   | c0 :: c1 :: c2 :: _ => isDigitCh c0 && isDigitCh c1 && c2 = '岁'
   | _ => false)
  || litHere highRiskLits l

/-- The literal alternatives of `RE_SPAM_MEDIUM_RISK` in `src/antispam/mod.rs`. -/
def mediumRiskLits : List String :=
  ["千", "万", "月", "天", "年", "最", "搞", "做", "操作", "进群", "做事",
   "事情", "了解", "打字", "联系", "押", "抢", "领", "招", "美丽", "冲",
   "来", "兄弟", "爽", "❤️", "✈️", "🤝", "😍"]

/-- `RE_SPAM_MEDIUM_RISK` at one position: `\d(W|w|K|k)`, `[1-5]00`, or a
literal alternative. -/
def mediumRiskHere (l : List Char) : Bool :=
  (match l with
   | c0 :: c1 :: _ => isDigitCh c0 && (c1 = 'W' || c1 = 'w' || c1 = 'K' || c1 = 'k')
   | _ => false)
  ||
  (match l with
   | c0 :: c1 :: c2 :: _ => ('1' ≤ c0 && c0 ≤ '5') && c1 = '0' && c2 = '0'
   | _ => false)
  || litHere mediumRiskLits l

/-- `RE_SPAM_NO_RISK` (`阿|啊|[aA]{3,}|[aA][hH]+`) at one position. For an
unanchored `is_match`, `[aA]{3,}` occurs somewhere iff three consecutive
`[aA]` occur, and `[aA][hH]+` iff `[aA][hH]` occurs. -/
def noRiskHere (l : List Char) : Bool :=
  (match l with
   | c0 :: _ => c0 = '阿' || c0 = '啊'
   | [] => false)
  ||
  (match l with
   | c0 :: c1 :: c2 :: _ => isLatinA c0 && isLatinA c1 && isLatinA c2
   | _ => false)
  ||
  (match l with
   | c0 :: c1 :: _ => isLatinA c0 && isLatinH c1
   | _ => false)

/-- `RE_SPAM_NO_RISK.is_match` of `src/antispam/mod.rs`. -/
def reNoRisk (text : String) : Bool := matchSomewhere noRiskHere text.data

/-- `RE_SPAM_HIGH_RISK.is_match` of `src/antispam/mod.rs`. -/
def reHighRisk (text : String) : Bool := matchSomewhere highRiskHere text.data

/-- `RE_SPAM_MEDIUM_RISK.is_match` of `src/antispam/mod.rs`. -/
def reMediumRisk (text : String) : Bool := matchSomewhere mediumRiskHere text.data

/-- The unanchored literal alternatives of `RE_SPAM_FULL_NAME` in
`src/antispam/mod.rs` (`看(主|竹)页`, `会(员|員)` and `来(了|咯)` expanded). -/
def fullNameLits : List String :=
  ["🔥", "看主页", "看竹页", "会员", "会員", "赚钱", "达利", "来了", "来咯"]

/-- `RE_SPAM_FULL_NAME` at one position: a literal alternative or the
character class `[⁪-⁯]`. -/
def fullNameHere (l : List Char) : Bool :=
  litHere fullNameLits l
  ||
  (match l with
   | c0 :: _ => 0x206a ≤ c0.toNat && c0.toNat ≤ 0x206f
   | [] => false)

/-- `RE_SPAM_FULL_NAME.is_match` of `src/antispam/mod.rs`; the `^dali`
alternative is anchored at the start of the string, the rest are not. -/
def reFullName (name : String) : Bool :=
  "dali".data.isPrefixOf name.data || matchSomewhere fullNameHere name.data

/-- Embeds `check_message_text` of `src/antispam/mod.rs`: the no-risk
override first, then high risk, then medium risk, else the unknown-risk
baseline. -/
def check_message_text (now : Nat) (text : String) : SpamState :=
  if reNoRisk text then .with_score now 0
  else if reHighRisk text then .new_spam now
  else if reMediumRisk text then .with_score now TEXT_SPAM_SCORE_MEDIUM_RISK
  else .with_score now TEXT_SPAM_SCORE_UNKNOWN_RISK

/-- Embeds `check_full_name_likely_spammer` of `src/antispam/mod.rs`: a name
containing `'|'` or `'｜'` is never flagged; otherwise the name is flagged
iff `RE_SPAM_FULL_NAME` matches. -/
def check_full_name_likely_spammer (name : String) : Bool :=
  if name.data.contains '|' || name.data.contains '｜' then false
  else reFullName name

end Antispam

namespace Storage

/-- Telegram chat identifier (`i64` in the source). -/
abbrev ChatId := Int

/-- Telegram user identifier (`u64` in the source). -/
abbrev UserId := Nat

/-- The `chats` map of `Data` in `src/storage.rs`
(`HashMap<ChatId, (UserId, u32)>`), modelled as a total lookup function. -/
abbrev Chats := ChatId → Option (UserId × Nat)

/-- Embeds `Storage::update_chat` of `src/storage.rs` (the flood guard):
for a chat with no recorded slot, any `(user, noa)` is admitted and stored;
otherwise the request is rejected when the user equals the last admitted
user, rejected when `noa > 3` and `noa > last_noa + 1`, and admitted (with
the slot overwritten) in every other case. -/
def update_chat (chats : Chats) (chat_id : ChatId) (user_id : UserId) (noa : Nat) :
    Except String Chats :=
  match chats chat_id with
  | some (last_uid, last_noa) =>
      if last_uid = user_id then
        .error "No single-user flooding"
      else if noa > 3 ∧ noa > last_noa + 1 then
        .error "No too many ah in a single message"
      else
        .ok (fun c => if c = chat_id then some (user_id, noa) else chats c)
  | none =>
      -- For group w/o history, anyone & any noa is allowed
      .ok (fun c => if c = chat_id then some (user_id, noa) else chats c)

end Storage

namespace SpamNames

/-- Embeds `Encounter` of `src/antispam/spam_names.rs`
(`usize` count, `u64` timestamps). -/
structure Encounter where
  count : Nat
  first_seen_ts_secs : Nat
  last_seen_ts_secs : Nat
  deriving DecidableEq, Repr

/-- `NEVER_STALE_DAYS` of `src/antispam/spam_names.rs`. -/
def NEVER_STALE_DAYS : Nat := 28

/-- `RETURNER_STALE_DAYS` of `src/antispam/spam_names.rs`. -/
def RETURNER_STALE_DAYS : Nat := 90

/-- The retention predicate of `SpamNames::cleanup_stale_entries`:
`days = (now - last_seen) / (3600 * 24)` (integer division on `u64`), and
the entry is retained iff `days ≤ 28` or `count > 1 ∧ days ≤ 90`. -/
def staleRetain (now : Nat) (e : Encounter) : Bool :=
  let days := (now - e.last_seen_ts_secs) / (3600 * 24)
  days ≤ NEVER_STALE_DAYS || (e.count > 1 && days ≤ RETURNER_STALE_DAYS)

/-- Embeds `SpamNames::cleanup_stale_entries` of `src/antispam/spam_names.rs`;
the `HashMap<String, Encounter>` is modelled as its entry list and
`retain` as `List.filter`. -/
def cleanup_stale_entries (now : Nat) (table : List (String × Encounter)) :
    List (String × Encounter) :=
  table.filter (fun p => staleRetain now p.2)

end SpamNames

namespace Legacy

/-- `SPAM_THREHOLD` of `src/storage.rs` (the legacy variant, same value). -/
def SPAM_THREHOLD : Nat := 100

/-- Embeds the legacy `SpamState` of `src/storage.rs` (identically declared
in `src/antispam.rs`): `Authentic`, `MaybeSpam(u8)` or `Spam`. -/
inductive SpamState where
  | Authentic
  | MaybeSpam (score : Nat)
  | Spam
  deriving DecidableEq, Repr

/-- Embeds the legacy `impl Add for SpamState` (`src/storage.rs`, identically
`src/antispam.rs`). The `a + b` there is *unchecked* `u8` addition, which
overflows when `a + b > 255`; the embedding makes the overflow explicit by
returning `none` in that case (a debug build panics there, a release build
would wrap). -/
def SpamState.add : SpamState → SpamState → Option SpamState
  | .Authentic, _ => some .Authentic
  | _, .Authentic => some .Authentic
  | .Spam, _ => some .Spam
  | _, .Spam => some .Spam
  | .MaybeSpam a, .MaybeSpam b =>
      if a + b ≤ 255 then
        some (if a + b < SPAM_THREHOLD then .MaybeSpam (a + b) else .Spam)
      else none

/-- The per-user map of `Data.users` in `src/storage.rs`, as a lookup
function. -/
abbrev Users := Storage.UserId → Option SpamState

/-- Embeds `Storage::update_user` of `src/storage.rs`:
`entry(uid).and_modify(|e| *e += new_state).or_insert(new_state)`, returning
the stored state. A `u8` overflow inside the legacy addition propagates as
`none`. -/
def update_user (users : Users) (user_id : Storage.UserId) (new_state : SpamState) :
    Option (SpamState × Users) :=
  match users user_id with
  | some e =>
      match e.add new_state with
      | some e' => some (e', fun u => if u = user_id then some e' else users u)
      | none => none
  | none => some (new_state, fun u => if u = user_id then some new_state else users u)

/-- A delta passed to `update_user` is in classifier range when any
`MaybeSpam` score is below the spam threshold. All states the legacy
classifier produces (scores `0`, `16`, `50`, or `Spam`) satisfy this. -/
def DeltaOk : SpamState → Prop
  | .MaybeSpam sc => sc < SPAM_THREHOLD
  | _ => True

/-- The states a stored user entry can reach through `update_user`
transitions starting from the default `MaybeSpam 0`, with every delta in
classifier range: the default; a delta inserted into a vacant entry
(`or_insert`); or a successful legacy addition of a delta to a reachable
state (`and_modify`). -/
inductive Reachable : SpamState → Prop
  | base : Reachable (.MaybeSpam 0)
  | insert (d : SpamState) : DeltaOk d → Reachable d
  | step (s d t : SpamState) : Reachable s → DeltaOk d → s.add d = some t → Reachable t

/-- The literal alternatives of the legacy `RE_SPAM_HIGH_RISK` in
`src/antispam.rs`: as in `src/antispam/mod.rs` but without `老公` and
`视频` (alternation groups expanded as there). -/
def highRiskLits : List String :=
  ["开户", "会员", "会員", "會员", "會員", "收入", "接入", "免费", "完整版",
   "兼职", "专职", "咨询", "日结", "小白", "钱", "赚", "支付", "风险", "主页",
   "介绍", "TRX", "散户", "母狗", "轮流", "内射", "学妹", "初中", "高中",
   "大学", "金主", "爸爸", "白眼", "团队", "专线", "代理", "合作",
   "保底", "日入", "商家", "红包", "盘口", "急需", "吋", "侑", "莳", "玖",
   "预付", "预服", "預付", "預服", "搬砖", "玳", "代付", "点位",
   "滴窝", "滴我", "嘀窝", "嘀我", "群演", "助手", "做工", "招人", "捡漏",
   "项目", "💵", "💯", "🧧", "📣", "➡️", "⬅️", "👉", "👈"]

/-- The legacy `RE_SPAM_HIGH_RISK` at one position (same non-literal
alternatives as the current variant). -/
def highRiskHere (l : List Char) : Bool :=
  (match l with
   | c0 :: _ => c0 = 'U' || c0 = 'u'
   | [] => false)
  ||
  (match l with
   | c0 :: c1 :: _ =>
      (Antispam.isDigitCh c0 || c0 = '黑' || c0 = '搬' || c0 = '送')
        && (c1 = 'U' || c1 = 'u')
   | _ => false)
  ||
  (match l with
   | c0 :: c1 :: c2 :: _ => Antispam.isDigitCh c0 && Antispam.isDigitCh c1 && c2 = '岁'
   | _ => false)
  || Antispam.litHere highRiskLits l

/-- The legacy `RE_SPAM_HIGH_RISK.is_match` of `src/antispam.rs`. -/
def reHighRisk (text : String) : Bool := Antispam.matchSomewhere highRiskHere text.data

/-- Embeds the legacy `check_message_text` of `src/antispam.rs`. Its
`RE_SPAM_NO_RISK` and `RE_SPAM_MEDIUM_RISK` are textually identical to the
ones of `src/antispam/mod.rs`, so their embeddings are reused; the scores
are `MaybeSpam(0)`, `Spam`, `MaybeSpam(50)` and `MaybeSpam(16)`. -/
def check_message_text (text : String) : SpamState :=
  if Antispam.reNoRisk text then .MaybeSpam 0
  else if reHighRisk text then .Spam
  else if Antispam.reMediumRisk text then .MaybeSpam (SPAM_THREHOLD / 2)
  else .MaybeSpam (SPAM_THREHOLD / 6)

end Legacy

namespace Action

/-- Embeds teloxide's `ApiError` values distinguished by `src/action.rs`;
all other API errors are collapsed into `otherApi`. -/
inductive ApiError where
  | messageToDeleteNotFound
  | messageIdInvalid
  | messageCantBeDeleted
  | botKicked
  | chatNotFound
  | otherApi (description : String)
  deriving DecidableEq, Repr

/-- Embeds teloxide's `RequestError` values distinguished by
`src/action.rs`; all other request errors are collapsed into
`otherRequest`. -/
inductive RequestError where
  | retryAfter (secs : Int)
  | network (description : String)
  | migrateToChatId (newChatId : Storage.ChatId)
  | api (err : ApiError)
  | otherRequest (description : String)
  deriving DecidableEq, Repr

/-- Embeds the retry loop of `delete_message` in `src/action.rs`. The
platform is modelled by `resp`, giving the outcome of the n-th
`delete_message` API call; `attempt` is the number of calls already made
and `remaining = max_retry - retry` the retries still allowed, so the match
arms land exactly as the guarded Rust arms do. The sleeps are not modelled
(untimed semantics). Returns the result together with the total number of
platform calls made. -/
def deleteLoop (resp : Nat → Except RequestError Unit) :
    Nat → Nat → Storage.ChatId → Except RequestError Unit × Nat
  | attempt, remaining, chat_id =>
    match resp attempt, remaining with
    | .ok _, _ => (.ok (), attempt + 1)
    | .error (.retryAfter _), r + 1 => deleteLoop resp (attempt + 1) r chat_id
    | .error (.network _), r + 1 => deleteLoop resp (attempt + 1) r chat_id
    | .error (.migrateToChatId c), r + 1 => deleteLoop resp (attempt + 1) r c
    | .error (.api .messageToDeleteNotFound), _ => (.ok (), attempt + 1)
    | .error (.api .messageIdInvalid), _ => (.ok (), attempt + 1)
    | .error (.api .messageCantBeDeleted), _ => (.ok (), attempt + 1)
    | .error (.api .botKicked), _ => (.ok (), attempt + 1)
    | .error (.api .chatNotFound), _ => (.ok (), attempt + 1)
    | .error e, _ => (.error e, attempt + 1)

/-- Embeds `delete_message` of `src/action.rs` (loop entered with
`retry = 0`). -/
def delete_message (resp : Nat → Except RequestError Unit) (chat_id : Storage.ChatId)
    (max_retry : Nat) : Except RequestError Unit × Nat :=
  deleteLoop resp 0 max_retry chat_id

/-- Embeds `ban_user` of `src/action.rs`: a single `ban_chat_member` call,
its error propagated with `?`, no retry. -/
def ban_user (resp : Except RequestError Unit) : Except RequestError Unit :=
  match resp with
  | .ok _ => .ok ()
  | .error e => .error e

end Action

namespace Background

/-- Insertion into the `BTreeSet` of `percentile`
(`src/antispam/background.rs`), the set being modelled as its sorted
(strictly increasing) element list. -/
def tInsert (x : Nat) : List Nat → List Nat
  | [] => [x]
  | y :: ys =>
      if x < y then x :: y :: ys
      else if x = y then y :: ys
      else y :: tInsert x ys

/-- The scan loop of `percentile`: keep at most `top_n` items; once full,
replace the smallest retained item (`tops.pop_first()`) by any larger
incoming one. -/
def percentileLoop (top_n : Nat) : List Nat → List Nat → List Nat
  | tops, [] => tops
  | tops, num :: rest =>
      if tops.length < top_n then percentileLoop top_n (tInsert num tops) rest
      else
        match tops with
        | [] => percentileLoop top_n tops rest
        | bottom :: bs =>
            if bottom < num then percentileLoop top_n (tInsert num bs) rest
            else percentileLoop top_n tops rest

/-- The `top_n` computation of `percentile`:
`((1.0 - k / 100.0) * (nums.len() as f32)).round()` then
`.clamp(1, usize::MAX)`. The `f32` arithmetic is modelled exactly in `ℚ`
(`f32::round` rounds half away from zero, which on these non-negative
values agrees with Mathlib's `round`); `as usize` of a negative value is
`0`, hence `Int.toNat`. -/
def top_n (k : ℚ) (len : Nat) : Nat :=
  max 1 (round ((1 - k / 100) * (len : ℚ))).toNat

/-- Embeds `percentile` of `src/antispam/background.rs`, after its
`k ∈ [0, 100]` assertion (an out-of-range `k` panics in the source, so the
theorems carry that range as a hypothesis). `pop_first` on the final set is
`head?` of the sorted list. -/
def percentile (k : ℚ) (nums : List Nat) : Option Nat :=
  (percentileLoop (top_n k nums.length) [] nums).head?

end Background

namespace Policy

/-- Message identifier (`i32` in teloxide). -/
abbrev MessageId := Int

/-- Message entity kinds distinguished by `src/policy.rs`: the six
decorative kinds are named, clickable/structural ones (URL, mention, …)
are collapsed into `otherEntity`. -/
inductive MessageEntityKind where
  | bold | underline | italic | code | strikethrough | spoiler
  | otherEntity (description : String)
  deriving DecidableEq, Repr

/-- The whitelist test of `src/policy.rs`:
`matches!(kind, Bold | Underline | Italic | Code | Strikethrough | Spoiler)`. -/
def decorativeEntity : MessageEntityKind → Bool
  | .bold | .underline | .italic | .code | .strikethrough | .spoiler => true
  | .otherEntity _ => false

/-- A Telegram user as consumed by `src/policy.rs`. -/
structure User where
  id : Storage.UserId
  isBot : Bool
  deriving DecidableEq, Repr

/-- A Telegram chat: its id and whether its kind is `ChatKind::Public`. -/
structure Chat where
  id : Storage.ChatId
  isPublic : Bool
  deriving DecidableEq, Repr

/-- A sticker, reduced to the `file.unique_id` consulted by the policy. -/
structure Sticker where
  fileUniqueId : String
  deriving DecidableEq, Repr

/-- The `MessageKind`s distinguished by `src/policy.rs`. -/
inductive MessageKind where
  | newChatTitle | newChatPhoto | deleteChatPhoto | pinned
  | common
  | newChatMembers (members : List User)
  | leftChatMember (member : User)
  | otherKind
  deriving DecidableEq, Repr

/-- A Telegram message as consumed by `src/policy.rs`: `fromUser` is
`message.from()`, `isReply` is `message.reply_to_message().is_some()`,
`entities` is `message.entities().unwrap_or(&[])`. -/
structure Message where
  id : MessageId
  chat : Chat
  kind : MessageKind
  fromUser : Option User
  isReply : Bool
  entities : List MessageEntityKind
  text : Option String
  sticker : Option Sticker
  deriving DecidableEq, Repr

/-- The `UpdateKind`s distinguished by `src/policy.rs`: `message`,
`editedMessage`, the chat-bearing remaining kinds (e.g. `ChatMember`)
collapsed into `chatMember`, the chat-less remaining kinds (e.g. `Poll`)
collapsed into `otherUpdate`, and `Error` (an unparseable update, carrying
the raw JSON value). -/
inductive UpdateKind where
  | message (msg : Message)
  | editedMessage (msg : Message)
  | chatMember (chat : Chat)
  | error (value : String)
  | otherUpdate
  deriving DecidableEq, Repr

/-- A Telegram update: `id` is the `i32` update id. -/
structure Update where
  id : Int
  kind : UpdateKind
  deriving DecidableEq, Repr

/-- teloxide's `Update::chat` (hence `GetChatId::chat_id` used by
`src/policy.rs`): `Message`/`EditedMessage` carry their message's chat,
member updates carry a chat, while `Error` and the poll-style kinds carry
none. -/
def Update.chat : Update → Option Chat
  | ⟨_, .message m⟩ => some m.chat
  | ⟨_, .editedMessage m⟩ => some m.chat
  | ⟨_, .chatMember c⟩ => some c
  | ⟨_, .error _⟩ => none
  | ⟨_, .otherUpdate⟩ => none

/-- The sled database of `PolicyState` in `src/policy.rs`, modelled by its
logical content: the `uid-{cid}`/`noa-{cid}` pair and the
`untrust-uid-{cid}-{uid}` counters, plus the `count_to_ban` setting. -/
structure PolicyDb where
  noa : Storage.ChatId → Option (Storage.UserId × Nat)
  untrust : Storage.ChatId → Storage.UserId → Option Nat
  count_to_ban : Nat

/-- `PolicyState::get_user_noa`. -/
def get_user_noa (st : PolicyDb) (cid : Storage.ChatId) : Option (Storage.UserId × Nat) :=
  st.noa cid

/-- `PolicyState::put_user_noa`. -/
def put_user_noa (st : PolicyDb) (cid : Storage.ChatId) (uid : Storage.UserId)
    (noa : Nat) : PolicyDb :=
  { st with noa := fun c => if c = cid then some (uid, noa) else st.noa c }

/-- `PolicyState::new_user_join`: store an untrust counter of `0`. -/
def new_user_join (st : PolicyDb) (cid : Storage.ChatId) (uid : Storage.UserId) : PolicyDb :=
  { st with untrust := fun c u => if c = cid ∧ u = uid then some 0 else st.untrust c u }

/-- `PolicyState::stop_trace_user`: remove the untrust counter. -/
def stop_trace_user (st : PolicyDb) (cid : Storage.ChatId) (uid : Storage.UserId) : PolicyDb :=
  { st with untrust := fun c u => if c = cid ∧ u = uid then none else st.untrust c u }

/-- `PolicyState::should_ban_user`: `update_and_fetch` increments an
existing untrust counter and compares it against `count_to_ban`; an absent
counter means `false`. -/
def should_ban_user (st : PolicyDb) (cid : Storage.ChatId) (uid : Storage.UserId) :
    Bool × PolicyDb :=
  match st.untrust cid uid with
  | some n =>
      (st.count_to_ban ≤ n + 1,
        { st with untrust := fun c u => if c = cid ∧ u = uid then some (n + 1) else st.untrust c u })
  | none => (false, st)

/-- Embeds `PolicyState::is_message_allowed` of `src/policy.rs`. The
allowed-sticker table (`stickers.txt`, an injected lookup table) is the
parameter `allowed`. -/
def is_message_allowed (allowed : String → Bool) (st : PolicyDb)
    (chat_id : Storage.ChatId) (m : Message) : Bool × PolicyDb :=
  match m.kind with
  | .newChatTitle | .newChatPhoto | .deleteChatPhoto | .pinned => (true, st)
  | .common =>
    match m.fromUser with
    | none => (false, st)
    | some user =>
      if user.isBot then (false, st)
      else if m.isReply then (false, st)
      else if m.entities.any (fun e => !(decorativeEntity e)) then (false, st)
      else
        let noaOpt : Option Nat :=
          match m.text with
          | none =>
            match m.sticker with
            | some sticker => if allowed sticker.fileUniqueId then some 1 else none
            | none => none
          | some text =>
            if !(text.data.all (fun c => c = '啊')) then none
            else some (text.utf8ByteSize / 3)
        match noaOpt with
        | none => (false, st)
        | some noa =>
          match get_user_noa st chat_id with
          | some (last_uid, last_noa) =>
            if last_uid = user.id then (false, st)
            else if noa > 3 ∧ noa > last_noa + 1 then (false, st)
            else (true, stop_trace_user (put_user_noa st chat_id user.id noa) chat_id user.id)
          | none => (true, stop_trace_user (put_user_noa st chat_id user.id noa) chat_id user.id)
  | _ => (false, st)

/-- Embeds `PolicyState::is_message_likely_spam` of `src/policy.rs`
(pure in the model: it only reads the message). -/
def is_message_likely_spam (allowed : String → Bool) (m : Message) : Option User :=
  match m.kind, m.fromUser with
  | .common, some sender =>
    match m.sticker with
    | some sticker => if !(allowed sticker.fileUniqueId) then some sender else none
    | none =>
      match m.text with
      | some text => if !(text.data.contains '啊') then some sender else none
      | none => some sender
  | _, _ => none

/-- Embeds `PolicyState::get_message_to_delete` of `src/policy.rs`. For an
`Error` update the source executes
`return Some((update.chat_id()?, MessageId(update.id)))`; since teloxide
reports no chat for an `Error` update, the `?` always short-circuits the
function to `None` there. -/
def get_message_to_delete (allowed : String → Bool) (st : PolicyDb) (u : Update) :
    Option (Storage.ChatId × MessageId) × PolicyDb :=
  match u.kind with
  | .error _ =>
    (match u.chat with
     | none => (none, st)
     | some c => (some (c.id, u.id), st))
  | _ =>
    match u.chat with
    | none => (none, st)
    | some chat =>
      if chat.isPublic then
        match u.kind with
        | .message msg =>
            let r := is_message_allowed allowed st chat.id msg
            (if r.1 then none else some (chat.id, msg.id), r.2)
        | .editedMessage msg => (some (chat.id, msg.id), st)
        | _ => (none, st)
      else (none, st)

/-- Embeds `PolicyState::get_user_to_ban` of `src/policy.rs`. -/
def get_user_to_ban (allowed : String → Bool) (st : PolicyDb) (u : Update) :
    Option (Storage.ChatId × Storage.UserId) × PolicyDb :=
  match u.kind with
  | .message m =>
    match m.kind with
    | .newChatMembers members =>
        (none, members.foldl (fun s mem => new_user_join s m.chat.id mem.id) st)
    | .common =>
      match is_message_likely_spam allowed m with
      | some spammer =>
          let r := should_ban_user st m.chat.id spammer.id
          (if r.1 then some (m.chat.id, spammer.id) else none, r.2)
      | none => (none, st)
    | .leftChatMember member => (none, stop_trace_user st m.chat.id member.id)
    | _ => (none, st)
  | _ => (none, st)

end Policy

/-- C1: combining two `MaybeSpam` (Suspect) states with scores `a`, `b`
(both `u8`, hence `≤ 255`) yields score `min 255 (a + b)`, the `min` of the
creation timestamps and the `max` of the update timestamps; if
`a + b ≥ 100 = SPAM_THREHOLD` the combined state is confirmed spam
(`is_spam`), and if `a + b < 100` the combined score is exactly `a + b`. -/
theorem C1_suspect_merge (a b c1 u1 c2 u2 : Nat) (ha : a ≤ 255) (hb : b ≤ 255) :
    (Antispam.SpamState.MaybeSpam a c1 u1).add (.MaybeSpam b c2 u2)
        = .MaybeSpam (min 255 (a + b)) (min c1 c2) (max u1 u2)
    ∧ (Antispam.SPAM_THREHOLD ≤ a + b →
        ((Antispam.SpamState.MaybeSpam a c1 u1).add (.MaybeSpam b c2 u2)).is_spam = true)
    ∧ (a + b < Antispam.SPAM_THREHOLD →
        (Antispam.SpamState.MaybeSpam a c1 u1).add (.MaybeSpam b c2 u2)
          = .MaybeSpam (a + b) (min c1 c2) (max u1 u2)) := by
  refine ⟨rfl, ?_, ?_⟩
  · intro h
    simp only [Antispam.SpamState.add, Antispam.SpamState.is_spam, Antispam.satAdd8,
      Antispam.SPAM_THREHOLD] at *
    simp only [decide_eq_true_eq]
    omega
  · intro h
    simp only [Antispam.SpamState.add, Antispam.satAdd8, Antispam.SPAM_THREHOLD] at *
    congr 1
    omega

/-- Witness for C1 at `a = 60`, `b = 50`. -/
theorem C1_suspect_merge_witness :
    (Antispam.SpamState.MaybeSpam 60 10 20).add (.MaybeSpam 50 5 30)
        = .MaybeSpam (min 255 (60 + 50)) (min 10 5) (max 20 30)
    ∧ (Antispam.SPAM_THREHOLD ≤ 60 + 50 →
        ((Antispam.SpamState.MaybeSpam 60 10 20).add (.MaybeSpam 50 5 30)).is_spam = true)
    ∧ (60 + 50 < Antispam.SPAM_THREHOLD →
        (Antispam.SpamState.MaybeSpam 60 10 20).add (.MaybeSpam 50 5 30)
          = .MaybeSpam (60 + 50) (min 10 5) (max 20 30)) :=
  C1_suspect_merge 60 50 10 20 5 30 (by decide) (by decide)

/-- C2: the `SpamState` combination operator is commutative and associative;
`Authentic` absorbs any state on either side; and combining two `MaybeSpam`
states (with `u8` scores, hence `≤ 255`) never decreases either score. -/
theorem C2_add_algebra :
    (∀ s t : Antispam.SpamState, s.add t = t.add s)
    ∧ (∀ s t u : Antispam.SpamState, (s.add t).add u = s.add (t.add u))
    ∧ (∀ s : Antispam.SpamState,
        Antispam.SpamState.Authentic.add s = .Authentic
        ∧ s.add .Authentic = .Authentic)
    ∧ (∀ a c1 u1 b c2 u2 sc cs us, a ≤ 255 → b ≤ 255 →
        (Antispam.SpamState.MaybeSpam a c1 u1).add (.MaybeSpam b c2 u2)
            = .MaybeSpam sc cs us →
        a ≤ sc ∧ b ≤ sc) := by
  refine ⟨?_, ?_, ?_, ?_⟩
  · intro s t
    cases s <;> cases t <;> simp [Antispam.SpamState.add, Antispam.satAdd8,
      Nat.add_comm, Nat.min_comm, Nat.max_comm]
  · intro s t u
    cases s <;> cases t <;> cases u <;>
      simp [Antispam.SpamState.add, Antispam.satAdd8, Nat.min_assoc, Nat.max_assoc] <;>
      omega
  · intro s
    cases s <;> exact ⟨rfl, rfl⟩
  · intro a c1 u1 b c2 u2 sc cs us ha hb h
    simp only [Antispam.SpamState.add, Antispam.satAdd8,
      Antispam.SpamState.MaybeSpam.injEq] at h
    omega

/-- Witness for C2's score-monotonicity conjunct at scores `200` and `200`
(saturating at `255`). -/
theorem C2_add_algebra_witness :
    (200 : Nat) ≤ 255 ∧ (200 : Nat) ≤ 255
    ∧ ((Antispam.SpamState.MaybeSpam 200 0 0).add (.MaybeSpam 200 0 0)
          = .MaybeSpam 255 0 0 →
        200 ≤ 255 ∧ 200 ≤ 255) :=
  ⟨by decide, by decide,
    C2_add_algebra.2.2.2 200 0 0 200 0 0 255 0 0 (by decide) (by decide)⟩

/-- C4: the flood-guard admission `update_chat`: with no recorded slot for
the chat, any `(user, noa)` is admitted and stored; with a recorded slot,
the request is rejected when the candidate user equals the last admitted
user, rejected when `noa > 3` and `noa > last_noa + 1`, and in every other
case admitted with the slot overwritten by `(user, noa)`. -/
theorem C4_flood_guard (chats : Storage.Chats) (cid : Storage.ChatId)
    (uid : Storage.UserId) (noa : Nat) :
    (chats cid = none →
      ∃ chats', Storage.update_chat chats cid uid noa = .ok chats'
        ∧ chats' cid = some (uid, noa))
    ∧ (∀ lu ln, chats cid = some (lu, ln) →
        (lu = uid → ∃ msg, Storage.update_chat chats cid uid noa = .error msg)
        ∧ (lu ≠ uid → noa > 3 → noa > ln + 1 →
            ∃ msg, Storage.update_chat chats cid uid noa = .error msg)
        ∧ (lu ≠ uid → (noa ≤ 3 ∨ noa ≤ ln + 1) →
            ∃ chats', Storage.update_chat chats cid uid noa = .ok chats'
              ∧ chats' cid = some (uid, noa))) := by
  constructor
  · intro h
    refine ⟨fun c => if c = cid then some (uid, noa) else chats c, ?_, ?_⟩
    · simp [Storage.update_chat, h]
    · simp
  · intro lu ln h
    refine ⟨?_, ?_, ?_⟩
    · intro he
      exact ⟨"No single-user flooding", by simp [Storage.update_chat, h, he]⟩
    · intro hne h3 hburst
      refine ⟨"No too many ah in a single message", ?_⟩
      simp only [Storage.update_chat, h]
      rw [if_neg hne, if_pos ⟨h3, hburst⟩]
    · intro hne hok
      refine ⟨fun c => if c = cid then some (uid, noa) else chats c, ?_, ?_⟩
      · simp only [Storage.update_chat, h]
        rw [if_neg hne, if_neg (by omega)]
      · simp

/-- Witness for C4: a vacant chat admits `(7, 5)`; the same user `7` is then
rejected; a burst (`noa = 9` after `last_noa = 2`) is rejected; and a
different user within `last_noa + 1` is admitted and stored. -/
theorem C4_flood_guard_witness :
    (∃ chats', Storage.update_chat (fun _ => none) 0 7 5 = .ok chats'
      ∧ chats' 0 = some (7, 5))
    ∧ (∃ msg, Storage.update_chat (fun _ => some (7, 2)) 0 7 3 = .error msg)
    ∧ (∃ msg, Storage.update_chat (fun _ => some (3, 2)) 0 7 9 = .error msg)
    ∧ (∃ chats', Storage.update_chat (fun _ => some (3, 4)) 0 7 5 = .ok chats'
      ∧ chats' 0 = some (7, 5)) :=
  ⟨(C4_flood_guard (fun _ => none) 0 7 5).1 rfl,
   ((C4_flood_guard (fun _ => some (7, 2)) 0 7 3).2 7 2 rfl).1 rfl,
   (((C4_flood_guard (fun _ => some (3, 2)) 0 7 9).2 3 2 rfl).2.1
      (by decide) (by decide) (by decide)),
   (((C4_flood_guard (fun _ => some (3, 4)) 0 7 5).2 3 4 rfl).2.2
      (by decide) (Or.inr (by decide)))⟩

/-- C6 counterexample: an entry with `count = 1` last seen
`28 days + 1 second` ago (more than 28 and at most 90 days, so the claim
says it is evicted) is in fact retained by `cleanup_stale_entries`, because
the sweep measures age in whole days (`(now - last_seen) / 86400`). -/
theorem C6_stale_sweep_counterexample :
    28 * 86400 < 2419201 - (0 : Nat)
    ∧ (2419201 : Nat) - 0 ≤ 90 * 86400
    ∧ SpamNames.cleanup_stale_entries 2419201 [("x", ⟨1, 0, 0⟩)]
        = [("x", ⟨1, 0, 0⟩)] :=
  ⟨by decide, by decide, rfl⟩

/-- C6 (amended): the staleness sweep retains exactly the entries whose age
in whole elapsed days, `(now - lastSeen) / 86400`, is at most 28, or whose
count exceeds 1 and whose whole-day age is at most 90; so a `count = 1`
entry is evicted iff at least 29 complete days have elapsed, and a
`count > 1` entry iff at least 91 complete days have elapsed. -/
theorem C6_stale_sweep (now : Nat) (tbl : List (String × SpamNames.Encounter))
    (name : String) (e : SpamNames.Encounter)
    (hmem : (name, e) ∈ tbl) (hclock : e.last_seen_ts_secs ≤ now) :
    (name, e) ∈ SpamNames.cleanup_stale_entries now tbl ↔
      (now - e.last_seen_ts_secs) / 86400 ≤ 28
      ∨ (1 < e.count ∧ (now - e.last_seen_ts_secs) / 86400 ≤ 90) := by
  rw [SpamNames.cleanup_stale_entries, List.mem_filter]
  simp only [hmem, true_and, SpamNames.staleRetain, SpamNames.NEVER_STALE_DAYS,
    SpamNames.RETURNER_STALE_DAYS, Bool.or_eq_true, Bool.and_eq_true,
    decide_eq_true_eq]

/-- Witness for C6 at a `count = 2` entry last seen 30 days ago: retained. -/
theorem C6_stale_sweep_witness :
    ("y", SpamNames.Encounter.mk 2 0 0) ∈
        SpamNames.cleanup_stale_entries 2592000 [("y", ⟨2, 0, 0⟩)] ↔
      (2592000 - (SpamNames.Encounter.mk 2 0 0).last_seen_ts_secs) / 86400 ≤ 28
      ∨ (1 < (SpamNames.Encounter.mk 2 0 0).count
         ∧ (2592000 - (SpamNames.Encounter.mk 2 0 0).last_seen_ts_secs) / 86400 ≤ 90) :=
  C6_stale_sweep 2592000 [("y", ⟨2, 0, 0⟩)] "y" ⟨2, 0, 0⟩ (by simp) (by decide)

/-- C3: a malformed/unsupported update (`UpdateKind::Error`) yields no
message to delete and no user to ban — the `?` on `update.chat_id()` always
short-circuits because an `Error` update carries no chat — and leaves the
policy state untouched. -/
theorem C3_error_update_fails_open (allowed : String → Bool) (st : Policy.PolicyDb)
    (i : Int) (v : String) :
    Policy.get_message_to_delete allowed st ⟨i, .error v⟩ = (none, st)
    ∧ Policy.get_user_to_ban allowed st ⟨i, .error v⟩ = (none, st) :=
  ⟨rfl, rfl⟩

/-- C5: `check_message_text` evaluates the tiers in order with the benign
override first: a no-risk match forces score `0` regardless of the other
lexicons; otherwise a high-risk match yields `new_spam` (score `101`,
confirmed spam); otherwise a medium-risk match yields score
`50 = SPAM_THREHOLD / 2`; otherwise the baseline score
`16 = SPAM_THREHOLD / 6`. -/
theorem C5_text_tiers (now : Nat) (text : String) :
    (Antispam.reNoRisk text = true →
      Antispam.check_message_text now text = .MaybeSpam 0 now now)
    ∧ (Antispam.reNoRisk text = false → Antispam.reHighRisk text = true →
      Antispam.check_message_text now text = .MaybeSpam 101 now now
      ∧ (Antispam.check_message_text now text).is_spam = true)
    ∧ (Antispam.reNoRisk text = false → Antispam.reHighRisk text = false →
       Antispam.reMediumRisk text = true →
      Antispam.check_message_text now text = .MaybeSpam 50 now now)
    ∧ (Antispam.reNoRisk text = false → Antispam.reHighRisk text = false →
       Antispam.reMediumRisk text = false →
      Antispam.check_message_text now text = .MaybeSpam 16 now now) := by
  refine ⟨fun h1 => ?_, fun h1 h2 => ⟨?_, ?_⟩, fun h1 h2 h3 => ?_, fun h1 h2 h3 => ?_⟩ <;>
    simp_all [Antispam.check_message_text, Antispam.SpamState.with_score,
      Antispam.SpamState.new_spam, Antispam.SpamState.is_spam, Antispam.satAdd8,
      Antispam.SPAM_THREHOLD, Antispam.TEXT_SPAM_SCORE_MEDIUM_RISK,
      Antispam.TEXT_SPAM_SCORE_UNKNOWN_RISK]

/-- Witness for C5 on the four tiers: the benign filler overrides a text
that also matches high- and medium-risk lexicons (`开户啊5k`); `搬U` is an
immediate spam verdict; `5k` scores 50; `123` scores the baseline 16. -/
theorem C5_text_tiers_witness :
    Antispam.check_message_text 7 "开户啊5k" = .MaybeSpam 0 7 7
    ∧ (Antispam.check_message_text 7 "搬U" = .MaybeSpam 101 7 7
       ∧ (Antispam.check_message_text 7 "搬U").is_spam = true)
    ∧ Antispam.check_message_text 7 "5k" = .MaybeSpam 50 7 7
    ∧ Antispam.check_message_text 7 "123" = .MaybeSpam 16 7 7 :=
  ⟨(C5_text_tiers 7 "开户啊5k").1 (by decide),
   (C5_text_tiers 7 "搬U").2.1 (by decide) (by decide),
   (C5_text_tiers 7 "5k").2.2.1 (by decide) (by decide) (by decide),
   (C5_text_tiers 7 "123").2.2.2 (by decide) (by decide) (by decide)⟩

/-- C8: `check_full_name_likely_spammer` returns `false` for every name
containing a vertical bar (`'|'` or `'｜'`), regardless of the lexicon; for
names without such a separator it returns exactly what the spam-name
pattern `RE_SPAM_FULL_NAME` says. -/
theorem C8_full_name_bar_escape (name : String) :
    (('|' ∈ name.data ∨ '｜' ∈ name.data) →
      Antispam.check_full_name_likely_spammer name = false)
    ∧ (¬ ('|' ∈ name.data ∨ '｜' ∈ name.data) →
      Antispam.check_full_name_likely_spammer name = Antispam.reFullName name) := by
  have hb : (name.data.contains '|' || name.data.contains '｜') = true
      ↔ ('|' ∈ name.data ∨ '｜' ∈ name.data) := by
    simp [List.contains, List.elem_eq_mem]
  constructor
  · intro h
    rw [Antispam.check_full_name_likely_spammer, if_pos (hb.mpr h)]
  · intro h
    rw [Antispam.check_full_name_likely_spammer, if_neg (fun hc => h (hb.mp hc))]

/-- Witness for C8: `啊啊|赚钱` matches the lexicon but carries a bar, so it
is not flagged; `立即来🔥赚麻了` has no bar, so the result equals the
pattern match. -/
theorem C8_full_name_bar_escape_witness :
    Antispam.check_full_name_likely_spammer "啊啊|赚钱" = false
    ∧ Antispam.check_full_name_likely_spammer "立即来🔥赚麻了"
        = Antispam.reFullName "立即来🔥赚麻了" :=
  ⟨(C8_full_name_bar_escape "啊啊|赚钱").1 (by decide),
   (C8_full_name_bar_escape "立即来🔥赚麻了").2 (by decide)⟩

/-- C9: the dispatcher classifies platform errors as specified — a
target-already-gone error (`MessageToDeleteNotFound` / `MessageIdInvalid`)
makes `delete_message` succeed after a single call; so do
insufficient-privilege (`MessageCantBeDeleted`) and bot-removed
(`BotKicked` / `ChatNotFound`) errors; any other unclassified error is
returned as a failure after that single call; and `ban_user` returns the
result of its single platform call unchanged (no retry). -/
theorem C9_dispatcher_error_classes (resp : Nat → Except Action.RequestError Unit)
    (chat_id : Storage.ChatId) (max_retry : Nat) :
    (resp 0 = .error (.api .messageToDeleteNotFound) →
      Action.delete_message resp chat_id max_retry = (.ok (), 1))
    ∧ (resp 0 = .error (.api .messageIdInvalid) →
      Action.delete_message resp chat_id max_retry = (.ok (), 1))
    ∧ (resp 0 = .error (.api .messageCantBeDeleted) →
      Action.delete_message resp chat_id max_retry = (.ok (), 1))
    ∧ (resp 0 = .error (.api .botKicked) →
      Action.delete_message resp chat_id max_retry = (.ok (), 1))
    ∧ (resp 0 = .error (.api .chatNotFound) →
      Action.delete_message resp chat_id max_retry = (.ok (), 1))
    ∧ (∀ d, resp 0 = .error (.api (.otherApi d)) →
      Action.delete_message resp chat_id max_retry = (.error (.api (.otherApi d)), 1))
    ∧ (∀ d, resp 0 = .error (.otherRequest d) →
      Action.delete_message resp chat_id max_retry = (.error (.otherRequest d), 1))
    ∧ (∀ r : Except Action.RequestError Unit, Action.ban_user r = r) := by
  have hban : ∀ r : Except Action.RequestError Unit, Action.ban_user r = r := by
    intro r
    cases r with
    | ok a => cases a; rfl
    | error e => rfl
  refine ⟨fun h => ?_, fun h => ?_, fun h => ?_, fun h => ?_, fun h => ?_,
    fun d h => ?_, fun d h => ?_, hban⟩ <;>
    cases max_retry <;>
      (simp only [Action.delete_message]; rw [Action.deleteLoop.eq_def]; simp [h])

/-- Witness for C9: a first call answered with `MessageToDeleteNotFound`
yields success in one call, and an unclassified API error is returned as a
failure in one call. -/
theorem C9_dispatcher_error_classes_witness :
    Action.delete_message (fun _ => .error (.api .messageToDeleteNotFound)) 5 3 = (.ok (), 1)
    ∧ Action.delete_message (fun _ => .error (.api (.otherApi "boom"))) 5 3
        = (.error (.api (.otherApi "boom")), 1)
    ∧ Action.ban_user (.error (.network "down")) = .error (.network "down") :=
  ⟨(C9_dispatcher_error_classes (fun _ => .error (.api .messageToDeleteNotFound)) 5 3).1 rfl,
   (C9_dispatcher_error_classes (fun _ => .error (.api (.otherApi "boom"))) 5 3).2.2.2.2.2.1
      "boom" rfl,
   (C9_dispatcher_error_classes (fun _ => .error (.api .messageToDeleteNotFound)) 5 3).2.2.2.2.2.2.2
      (.error (.network "down"))⟩

/-- Every state the legacy store can reach (C10's reachability) keeps any
`MaybeSpam` score strictly below the spam threshold: the default is `0`,
inserted deltas are in classifier range, and a successful legacy addition
either stays below the threshold or collapses to `Spam`. -/
theorem legacy_reachable_score_lt {s : Legacy.SpamState} (hs : Legacy.Reachable s) :
    ∀ sc, s = .MaybeSpam sc → sc < Legacy.SPAM_THREHOLD := by
  induction hs with
  | base =>
    intro sc h
    cases h
    simp [Legacy.SPAM_THREHOLD]
  | insert d hd =>
    intro sc h
    subst h
    exact hd
  | step s d t hs hd hadd ih =>
    intro sc h
    subst h
    cases s <;> cases d <;>
      simp only [Legacy.SpamState.add] at hadd <;>
      try (cases hadd)
    rename_i a b
    simp only [Legacy.SPAM_THREHOLD] at *
    split at hadd
    · split at hadd
      · simp only [Option.some.injEq, Legacy.SpamState.MaybeSpam.injEq] at hadd
        omega
      · simp at hadd
    · cases hadd

/-- C10: the legacy `u8` addition of two `MaybeSpam` scores below the
threshold sums to at most `198`, so the unchecked `a + b` never overflows
and the addition is total; any `MaybeSpam` state reachable by `update_user`
transitions from the default (with deltas in classifier range) is below the
threshold, so the addition stays total on reachable states; and every
output of the legacy classifier `check_message_text` is in classifier
range. -/
theorem C10_legacy_add_total :
    (∀ a b : Nat, a < Legacy.SPAM_THREHOLD → b < Legacy.SPAM_THREHOLD →
      a + b ≤ 198
      ∧ (Legacy.SpamState.MaybeSpam a).add (.MaybeSpam b)
          = some (if a + b < Legacy.SPAM_THREHOLD then .MaybeSpam (a + b) else .Spam))
    ∧ (∀ s sc, Legacy.Reachable s → s = .MaybeSpam sc → sc < Legacy.SPAM_THREHOLD)
    ∧ (∀ s d, Legacy.Reachable s → Legacy.DeltaOk d → s.add d ≠ none)
    ∧ (∀ text, Legacy.DeltaOk (Legacy.check_message_text text)) := by
  refine ⟨fun a b ha hb => ⟨?_, ?_⟩, fun s sc hs h => legacy_reachable_score_lt hs sc h,
    fun s d hs hd => ?_, fun text => ?_⟩
  · simp only [Legacy.SPAM_THREHOLD] at ha hb
    omega
  · simp only [Legacy.SPAM_THREHOLD] at ha hb
    simp only [Legacy.SpamState.add]
    rw [if_pos (by omega)]
  · cases s <;> cases d <;> simp only [Legacy.SpamState.add] <;> try simp
    rename_i a b
    have hA : a < Legacy.SPAM_THREHOLD := legacy_reachable_score_lt hs a rfl
    have hB : b < Legacy.SPAM_THREHOLD := hd
    simp only [Legacy.SPAM_THREHOLD] at hA hB
    omega
  · unfold Legacy.check_message_text
    split_ifs <;> simp [Legacy.DeltaOk, Legacy.SPAM_THREHOLD]

/-- Witness for C10: scores `99 + 99 = 198` do not overflow; the reachable
state `MaybeSpam 16` is below the threshold; adding the classifier delta
`MaybeSpam 50` to it succeeds; and the classifier output for `123` is in
range. -/
theorem C10_legacy_add_total_witness :
    ((99 : Nat) + 99 ≤ 198
      ∧ (Legacy.SpamState.MaybeSpam 99).add (.MaybeSpam 99)
          = some (if 99 + 99 < Legacy.SPAM_THREHOLD then .MaybeSpam (99 + 99) else .Spam))
    ∧ (16 : Nat) < Legacy.SPAM_THREHOLD
    ∧ (Legacy.SpamState.MaybeSpam 16).add (.MaybeSpam 50) ≠ none
    ∧ Legacy.DeltaOk (Legacy.check_message_text "123") :=
  ⟨C10_legacy_add_total.1 99 99 (by decide) (by decide),
   C10_legacy_add_total.2.1 (.MaybeSpam 16) 16
     (Legacy.Reachable.insert _ (by norm_num [Legacy.DeltaOk, Legacy.SPAM_THREHOLD])) rfl,
   C10_legacy_add_total.2.2.1 (.MaybeSpam 16) (.MaybeSpam 50)
     (Legacy.Reachable.insert _ (by norm_num [Legacy.DeltaOk, Legacy.SPAM_THREHOLD]))
     (by norm_num [Legacy.DeltaOk, Legacy.SPAM_THREHOLD]),
   C10_legacy_add_total.2.2.2 "123"⟩

/-- Membership in the modelled `BTreeSet` insertion. -/
theorem bg_tInsert_mem (x a : Nat) (s : List Nat) :
    a ∈ Background.tInsert x s ↔ a = x ∨ a ∈ s := by
  induction s with
  | nil => simp [Background.tInsert]
  | cons y ys ih =>
    simp only [Background.tInsert]
    split_ifs with h1 h2
    · simp [List.mem_cons]
    · subst h2
      simp only [List.mem_cons]
      tauto
    · simp only [List.mem_cons, ih]
      tauto

/-- `tInsert` preserves strict sortedness. -/
theorem bg_tInsert_sorted (x : Nat) (s : List Nat) :
    List.Sorted (· < ·) s → List.Sorted (· < ·) (Background.tInsert x s) := by
  induction s with
  | nil => intro _; simp [Background.tInsert]
  | cons y ys ih =>
    intro hs
    rw [List.sorted_cons] at hs
    obtain ⟨hy, hys⟩ := hs
    simp only [Background.tInsert]
    split_ifs with h1 h2
    · rw [List.sorted_cons]
      refine ⟨?_, ?_⟩
      · intro b hb
        rcases List.mem_cons.mp hb with rfl | hb
        · exact h1
        · exact h1.trans (hy b hb)
      · rw [List.sorted_cons]
        exact ⟨hy, hys⟩
    · rw [List.sorted_cons]
      exact ⟨hy, hys⟩
    · rw [List.sorted_cons]
      refine ⟨?_, ih hys⟩
      intro b hb
      rcases (bg_tInsert_mem x b ys).mp hb with rfl | hb
      · omega
      · exact hy b hb

/-- `tInsert` grows the set by at most one element. -/
theorem bg_tInsert_length_le (x : Nat) (s : List Nat) :
    (Background.tInsert x s).length ≤ s.length + 1 := by
  induction s with
  | nil => simp [Background.tInsert]
  | cons y ys ih =>
    simp only [Background.tInsert]
    split_ifs with h1 h2
    · simp
    · simp
    · simpa using ih

/-- `tInsert` of a fresh element grows the set by exactly one element. -/
theorem bg_tInsert_length_notMem (x : Nat) (s : List Nat) (hx : x ∉ s) :
    (Background.tInsert x s).length = s.length + 1 := by
  induction s with
  | nil => simp [Background.tInsert]
  | cons y ys ih =>
    rw [List.mem_cons] at hx
    push_neg at hx
    simp only [Background.tInsert]
    split_ifs with h1 h2
    · simp
    · exact absurd h2 hx.1
    · simpa using ih hx.2

/-- `tInsert` of a fresh element is a permutation of `cons`. -/
theorem bg_tInsert_perm (x : Nat) (s : List Nat) (hx : x ∉ s) :
    (Background.tInsert x s).Perm (x :: s) := by
  induction s with
  | nil => simp [Background.tInsert]
  | cons y ys ih =>
    rw [List.mem_cons] at hx
    push_neg at hx
    simp only [Background.tInsert]
    split_ifs with h1 h2
    · exact List.Perm.refl _
    · exact absurd h2 hx.1
    · exact ((ih hx.2).cons y).trans (List.Perm.swap x y ys)

/-- Membership in the fold of `tInsert` over the whole input list. -/
theorem bg_fold_mem (xs : List Nat) : ∀ (s : List Nat) (a : Nat),
    (a ∈ xs.foldl (fun acc x => Background.tInsert x acc) s ↔ a ∈ s ∨ a ∈ xs) := by
  induction xs with
  | nil => intro s a; simp
  | cons x rest ih =>
    intro s a
    rw [List.foldl_cons, ih, bg_tInsert_mem]
    simp only [List.mem_cons]
    tauto

/-- The fold of `tInsert` preserves strict sortedness. -/
theorem bg_fold_sorted (xs : List Nat) : ∀ (s : List Nat),
    List.Sorted (· < ·) s →
    List.Sorted (· < ·) (xs.foldl (fun acc x => Background.tInsert x acc) s) := by
  induction xs with
  | nil => intro s hs; exact hs
  | cons x rest ih => intro s hs; exact ih _ (bg_tInsert_sorted x s hs)

/-- The fold of `tInsert` over a duplicate-free disjoint input is a
permutation of appending the input. -/
theorem bg_fold_perm (xs : List Nat) : ∀ (s : List Nat),
    (∀ a ∈ xs, a ∉ s) → xs.Nodup →
    (xs.foldl (fun acc x => Background.tInsert x acc) s).Perm (s ++ xs) := by
  induction xs with
  | nil => intro s _ _; simp
  | cons x rest ih =>
    intro s hdisj hnd
    rw [List.nodup_cons] at hnd
    have hx : x ∉ s := hdisj x (List.mem_cons_self x rest)
    have hdisj' : ∀ a ∈ rest, a ∉ Background.tInsert x s := by
      intro a ha
      rw [bg_tInsert_mem]
      push_neg
      refine ⟨?_, hdisj a (List.mem_cons_of_mem x ha)⟩
      intro hax
      exact hnd.1 (hax ▸ ha)
    rw [List.foldl_cons]
    refine (ih _ hdisj' hnd.2).trans ?_
    refine (((bg_tInsert_perm x s hx).append_right rest).trans ?_)
    exact List.perm_middle.symm

/-- While the set is small enough, the loop only inserts. -/
theorem bg_loop_insert_all (topn : Nat) (xs : List Nat) : ∀ (s : List Nat),
    s.length + xs.length ≤ topn →
    Background.percentileLoop topn s xs
      = xs.foldl (fun acc x => Background.tInsert x acc) s := by
  induction xs with
  | nil => intro s _; rfl
  | cons x rest ih =>
    intro s h
    rw [List.foldl_cons]
    have hlt : s.length < topn := by
      simp only [List.length_cons] at h
      omega
    simp only [Background.percentileLoop]
    rw [if_pos hlt]
    refine ih _ ?_
    have := bg_tInsert_length_le x s
    simp only [List.length_cons] at h
    omega

/-- Dropping past an appended block of known length. -/
theorem bg_drop_append (u w : List Nat) : (u ++ w).drop u.length = w := by
  induction u with
  | nil => simp
  | cons y u' ih => simpa using ih

/-- Dropping past an appended block and one further element. -/
theorem bg_drop_after (u w : List Nat) (b : Nat) :
    (u ++ b :: w).drop (u.length + 1) = w := by
  induction u with
  | nil => simp
  | cons y u' ih => simpa using ih

/-- Inserting an element greater than a whole block walks past the block. -/
theorem bg_tInsert_append_gt (x : Nat) (v : List Nat) : ∀ (u : List Nat),
    (∀ y ∈ u, y < x) →
    Background.tInsert x (u ++ v) = u ++ Background.tInsert x v := by
  intro u
  induction u with
  | nil => intro _; rfl
  | cons y u' ih =>
    intro hu
    have hy : y < x := hu y (List.mem_cons_self y u')
    simp only [List.cons_append, Background.tInsert]
    rw [if_neg (by omega), if_neg (by omega)]
    simp only [List.append_eq]
    rw [ih (fun z hz => hu z (List.mem_cons_of_mem y hz))]

/-- Inserting an element smaller than the pivot of the tail stays inside
the front block. -/
theorem bg_tInsert_append_lt (x b : Nat) (bs : List Nat) (hxb : x < b) :
    ∀ (u : List Nat), x ∉ u →
    Background.tInsert x (u ++ b :: bs) = Background.tInsert x u ++ b :: bs := by
  intro u
  induction u with
  | nil =>
    intro _
    simp only [List.nil_append, Background.tInsert]
    rw [if_pos hxb]
    rfl
  | cons y u' ih =>
    intro hx
    rw [List.mem_cons] at hx
    push_neg at hx
    simp only [List.cons_append, Background.tInsert]
    split_ifs with h1 h2
    · simp
    · exact absurd h2 hx.1
    · simp only [List.append_eq]
      rw [ih hx.2]
      simp

/-- One loop step on a full set, seen through the sorted-suffix view: the
suffix of the enlarged sorted set is what the loop body computes from the
old suffix. -/
theorem bg_drop_step (topn : Nat) (s : List Nat) (x : Nat)
    (hs : List.Sorted (· < ·) s) (hx : x ∉ s) (hlen : topn ≤ s.length)
    (b : Nat) (bs : List Nat) (htops : s.drop (s.length - topn) = b :: bs) :
    (Background.tInsert x s).drop (s.length + 1 - topn)
      = if b < x then Background.tInsert x bs else b :: bs := by
  have hsplit : s.take (s.length - topn) ++ b :: bs = s := by
    rw [← htops, List.take_append_drop]
  have hulen : (s.take (s.length - topn)).length = s.length - topn := by
    rw [List.length_take]
    omega
  have hub : ∀ y ∈ s.take (s.length - topn), y < b := by
    intro y hy
    have hsorted : List.Sorted (· < ·) (s.take (s.length - topn) ++ b :: bs) := by
      rw [hsplit]; exact hs
    exact (List.pairwise_append.mp hsorted).2.2 y hy b (List.mem_cons_self b bs)
  have hdnum : s.length + 1 - topn = (s.take (s.length - topn)).length + 1 := by
    rw [hulen]; omega
  have hxb : x ≠ b := by
    intro h
    apply hx
    rw [← hsplit, h]
    exact List.mem_append_right _ (List.mem_cons_self b bs)
  have hxu : x ∉ s.take (s.length - topn) := by
    intro h
    exact hx (List.mem_of_mem_take h)
  by_cases hbx : b < x
  · rw [if_pos hbx]
    have h1 := bg_tInsert_append_gt x (b :: bs) (s.take (s.length - topn))
      (fun y hy => (hub y hy).trans hbx)
    rw [hsplit] at h1
    have h2 : Background.tInsert x (b :: bs) = b :: Background.tInsert x bs := by
      simp only [Background.tInsert]
      rw [if_neg (by omega), if_neg (by omega)]
    rw [h2] at h1
    rw [h1, hdnum, bg_drop_after]
  · rw [if_neg hbx]
    have hxb' : x < b := by omega
    have h1 := bg_tInsert_append_lt x b bs hxb' (s.take (s.length - topn)) hxu
    rw [hsplit] at h1
    have h2 : (Background.tInsert x (s.take (s.length - topn))).length
        = s.length + 1 - topn := by
      rw [bg_tInsert_length_notMem x _ hxu, hulen]
      omega
    rw [h1, ← h2, bg_drop_append]

/-- The loop of `percentile`, run on a duplicate-free input against the
sorted-set suffix of length `topn`, computes exactly the suffix of the full
sorted set: the top `topn` elements in increasing order. -/
theorem bg_loop_drop (topn : Nat) (ht : 1 ≤ topn) (xs : List Nat) : ∀ (s : List Nat),
    List.Sorted (· < ·) s → (∀ a ∈ xs, a ∉ s) → xs.Nodup →
    Background.percentileLoop topn (s.drop (s.length - topn)) xs
      = (xs.foldl (fun acc x => Background.tInsert x acc) s).drop
          ((xs.foldl (fun acc x => Background.tInsert x acc) s).length - topn) := by
  induction xs with
  | nil => intro s _ _ _; rfl
  | cons x rest ih =>
    intro s hs hdisj hnd
    rw [List.nodup_cons] at hnd
    have hx : x ∉ s := hdisj x (List.mem_cons_self x rest)
    have hlen' : (Background.tInsert x s).length = s.length + 1 :=
      bg_tInsert_length_notMem x s hx
    have hdisj' : ∀ a ∈ rest, a ∉ Background.tInsert x s := by
      intro a ha
      rw [bg_tInsert_mem]
      push_neg
      exact ⟨fun hax => hnd.1 (hax ▸ ha), hdisj a (List.mem_cons_of_mem x ha)⟩
    have hsorted' := bg_tInsert_sorted x s hs
    have IH := ih (Background.tInsert x s) hsorted' hdisj' hnd.2
    rw [List.foldl_cons]
    by_cases hcase : s.length < topn
    · have h0 : s.length - topn = 0 := by omega
      have h0' : (Background.tInsert x s).length - topn = 0 := by omega
      rw [h0, List.drop_zero]
      simp only [Background.percentileLoop]
      rw [if_pos hcase]
      rw [h0', List.drop_zero] at IH
      exact IH
    · push_neg at hcase
      have hlentops : (s.drop (s.length - topn)).length = topn := by
        rw [List.length_drop]
        omega
      obtain ⟨b, bs, htops⟩ : ∃ b bs, s.drop (s.length - topn) = b :: bs := by
        cases h : s.drop (s.length - topn) with
        | nil =>
          rw [h] at hlentops
          simp at hlentops
          omega
        | cons b bs => exact ⟨b, bs, rfl⟩
      rw [hlen', bg_drop_step topn s x hs hx hcase b bs htops] at IH
      rw [htops]
      simp only [Background.percentileLoop]
      have hnlt : ¬ (b :: bs).length < topn := by
        rw [← htops, hlentops]
        omega
      rw [if_neg hnlt]
      by_cases hbx : b < x
      · rw [if_pos hbx]
        rw [if_pos hbx] at IH
        exact IH
      · rw [if_neg hbx]
        rw [if_neg hbx] at IH
        exact IH

/-- `top_n` at `k = 0` keeps everything: `round(1.0 * len) = len`. -/
theorem bg_top_n_zero (len : Nat) : Background.top_n 0 len = max 1 len := by
  rw [Background.top_n]
  norm_num

/-- `top_n` at `k = 100` keeps a single element: `round(0.0 * len) = 0`,
clamped to `1`. -/
theorem bg_top_n_hundred (len : Nat) : Background.top_n 100 len = 1 := by
  rw [Background.top_n]
  norm_num

/-- `top_n` at `k = 50` over ten elements: `round(0.5 * 10) = 5`. -/
theorem bg_top_n_fifty : Background.top_n 50 10 = 5 := by
  rw [Background.top_n]
  norm_num [round_eq]
  rfl

/-- `top_n` at `k = 84` over ten elements: `round(0.16 * 10) = round(1.6) = 2`. -/
theorem bg_top_n_eightyfour : Background.top_n 84 10 = 2 := by
  rw [Background.top_n]
  norm_num [round_eq]
  rfl

/-- `percentile 0` of a non-empty list is its minimum. -/
theorem bg_percentile_zero (xs : List Nat) (h : xs ≠ []) :
    Background.percentile 0 xs = xs.min? := by
  have hlen : 1 ≤ xs.length := List.length_pos.mpr h
  have htop : Background.top_n 0 xs.length = xs.length := by
    rw [bg_top_n_zero]
    omega
  rw [Background.percentile, htop, bg_loop_insert_all _ _ _ (by simp)]
  cases hf : xs.foldl (fun acc x => Background.tInsert x acc) [] with
  | nil =>
    exfalso
    obtain ⟨a, ha⟩ := List.exists_mem_of_ne_nil xs h
    have hmem := (bg_fold_mem xs [] a).mpr (Or.inr ha)
    rw [hf] at hmem
    simp at hmem
  | cons m t =>
    have hsorted : List.Sorted (· < ·) (m :: t) := by
      rw [← hf]
      exact bg_fold_sorted xs [] (by simp)
    have hmem : ∀ a, a ∈ m :: t ↔ a ∈ xs := by
      intro a
      rw [← hf, bg_fold_mem]
      simp
    show some m = xs.min?
    symm
    rw [List.min?_eq_some_iff (fun a => Nat.le_refl a) (fun a b => min_choice a b)
      (fun a b c => le_min_iff)]
    constructor
    · exact (hmem m).mp (List.mem_cons_self m t)
    · intro b hb
      rcases List.mem_cons.mp ((hmem b).mpr hb) with rfl | hbt
      · exact Nat.le_refl _
      · exact Nat.le_of_lt ((List.sorted_cons.mp hsorted).1 b hbt)

/-- With `top_n = 1` the loop keeps exactly the running maximum. -/
theorem bg_loop_one (xs : List Nat) : ∀ (b : Nat),
    Background.percentileLoop 1 [b] xs = [xs.foldl max b] := by
  induction xs with
  | nil => intro b; rfl
  | cons x rest ih =>
    intro b
    simp only [Background.percentileLoop]
    rw [if_neg (by simp)]
    by_cases hbx : b < x
    · rw [if_pos hbx]
      have h1 : Background.tInsert x [] = [x] := rfl
      rw [h1, List.foldl_cons, Nat.max_eq_right (Nat.le_of_lt hbx), ih x]
    · rw [if_neg hbx]
      rw [List.foldl_cons, Nat.max_eq_left (by omega), ih b]

/-- `percentile 100` of a non-empty list is its maximum. -/
theorem bg_percentile_hundred (xs : List Nat) (h : xs ≠ []) :
    Background.percentile 100 xs = xs.max? := by
  cases xs with
  | nil => exact absurd rfl h
  | cons x rest =>
    rw [Background.percentile, bg_top_n_hundred]
    simp only [Background.percentileLoop]
    rw [if_pos (by simp)]
    have h1 : Background.tInsert x [] = [x] := rfl
    rw [h1, bg_loop_one]
    rfl

/-- `percentile` on any permutation of `0..9`, through the sorted-suffix
view: the result is the head of the tail suffix of `[0, …, 9]`. -/
theorem bg_percentile_range_ten (k : ℚ) (n : Nat) (hk : Background.top_n k 10 = n)
    (hn : 1 ≤ n) (xs : List Nat) (hperm : xs.Perm (List.range 10)) :
    Background.percentile k xs = ((List.range 10).drop (10 - n)).head? := by
  have hlen : xs.length = 10 := by rw [hperm.length_eq, List.length_range]
  have hnd : xs.Nodup := hperm.nodup_iff.mpr (List.nodup_range 10)
  rw [Background.percentile, hlen, hk]
  have hloop := bg_loop_drop n hn xs [] (by simp) (by simp) hnd
  simp only [List.length_nil, List.drop_nil] at hloop
  rw [hloop]
  have hfold : xs.foldl (fun acc x => Background.tInsert x acc) [] = List.range 10 := by
    have hp0 := bg_fold_perm xs [] (by simp) hnd
    rw [List.nil_append] at hp0
    have hp := hp0.trans hperm
    have hsor : List.Sorted (· < ·) (xs.foldl (fun acc x => Background.tInsert x acc) []) :=
      bg_fold_sorted xs [] (by simp)
    haveI : IsAntisymm ℕ (· < ·) := ⟨fun a b h1 h2 => absurd h2 (Nat.lt_asymm h1)⟩
    exact List.eq_of_perm_of_sorted hp hsor (List.sorted_lt_range 10)
  rw [hfold, List.length_range]

/-- C7: the percentile helper returns the minimum at `k = 0` and the
maximum at `k = 100` for every non-empty list; on any ordering of the ten
distinct elements `0..9` it returns `5` at `k = 50` and `8` at `k = 84`;
and on the empty list it returns no result for every `k ∈ [0, 100]`. -/
theorem C7_percentile :
    (∀ xs : List Nat, xs ≠ [] → Background.percentile 0 xs = xs.min?)
    ∧ (∀ xs : List Nat, xs ≠ [] → Background.percentile 100 xs = xs.max?)
    ∧ (∀ xs : List Nat, xs.Perm (List.range 10) →
        Background.percentile 50 xs = some 5 ∧ Background.percentile 84 xs = some 8)
    ∧ (∀ k : ℚ, 0 ≤ k → k ≤ 100 → Background.percentile k [] = none) := by
  refine ⟨bg_percentile_zero, bg_percentile_hundred, fun xs hp => ⟨?_, ?_⟩,
    fun k _ _ => rfl⟩
  · rw [bg_percentile_range_ten 50 5 bg_top_n_fifty (by omega) xs hp]
    rfl
  · rw [bg_percentile_range_ten 84 2 bg_top_n_eightyfour (by omega) xs hp]
    rfl

/-- Witness for C7 at concrete lists: `[3, 1, 2]` for min/max, a reversed
`0..9` for the two percentiles, and `k = 37` on the empty list. -/
theorem C7_percentile_witness :
    Background.percentile 0 [3, 1, 2] = [3, 1, 2].min?
    ∧ Background.percentile 100 [3, 1, 2] = [3, 1, 2].max?
    ∧ (Background.percentile 50 [9, 8, 7, 6, 5, 4, 3, 2, 1, 0] = some 5
       ∧ Background.percentile 84 [9, 8, 7, 6, 5, 4, 3, 2, 1, 0] = some 8)
    ∧ Background.percentile 37 [] = none :=
  ⟨C7_percentile.1 [3, 1, 2] (by decide),
   C7_percentile.2.1 [3, 1, 2] (by decide),
   C7_percentile.2.2.1 [9, 8, 7, 6, 5, 4, 3, 2, 1, 0] (by decide),
   C7_percentile.2.2.2 37 (by norm_num) (by norm_num)⟩
